import Mathlib

/-!
Shallow embedding of the UserFetchAssess client (src/src/index.ts together with
src/src/constants.ts) and verification of its specification.

JavaScript strings are modelled as `List Char` (`Str`); byte strings as
`List Nat` with every element `< 256`; HTTP status codes as `Nat`; fallible
steps return `Except Str`.  The network transport is an external collaborator:
the responses a run receives are collected in an `Env` record and each
orchestrator step is a pure function of that record.
-/

abbrev Str := List Char

/-! ## 32-bit arithmetic helpers (machine words as `Nat % 2^32`) -/

def w32 (n : Nat) : Nat := n % 4294967296

def rotl32 (k x : Nat) : Nat :=
  w32 (x * 2 ^ k) ||| (x % 4294967296) / 2 ^ (32 - k)

def not32 (x : Nat) : Nat := x ^^^ 0xFFFFFFFF

/-! ## Byte-level helpers -/

def wordToBytes (w : Nat) : List Nat :=
  [w / 2 ^ 24 % 256, w / 2 ^ 16 % 256, w / 2 ^ 8 % 256, w % 256]

def bytesToWords : List Nat → List Nat
  | b0 :: b1 :: b2 :: b3 :: rest =>
      (b0 * 2 ^ 24 + b1 * 2 ^ 16 + b2 * 2 ^ 8 + b3) :: bytesToWords rest
  | _ => []

def lenBytes64 (n : Nat) : List Nat :=
  [n / 2 ^ 56 % 256, n / 2 ^ 48 % 256, n / 2 ^ 40 % 256, n / 2 ^ 32 % 256,
   n / 2 ^ 24 % 256, n / 2 ^ 16 % 256, n / 2 ^ 8 % 256, n % 256]

def chunk64 : List Nat → List (List Nat)
  | [] => []
  | bs@(_ :: _) => bs.take 64 :: chunk64 (bs.drop 64)
termination_by bs => bs.length
decreasing_by simp_all [List.length_drop]; omega

/-! ## SHA-1 (FIPS 180-1), the digest algorithm behind the Node `crypto` HMAC used by the client -/

def sha1ExtendWords (ws : List Nat) : Nat → List Nat
  | 0 => ws
  | k + 1 =>
      let n := ws.length
      let w := rotl32 1 (((ws.getD (n - 3) 0 ^^^ ws.getD (n - 8) 0) ^^^
                           ws.getD (n - 14) 0) ^^^ ws.getD (n - 16) 0)
      sha1ExtendWords (ws ++ [w]) k

def sha1F (i b c d : Nat) : Nat :=
  if i < 20 then (b &&& c) ||| (not32 b &&& d)
  else if i < 40 then (b ^^^ c) ^^^ d
  else if i < 60 then ((b &&& c) ||| (b &&& d)) ||| (c &&& d)
  else (b ^^^ c) ^^^ d

def sha1K (i : Nat) : Nat :=
  if i < 20 then 0x5A827999
  else if i < 40 then 0x6ED9EBA1
  else if i < 60 then 0x8F1BBCDC
  else 0xCA62C1D6

def sha1Rounds : Nat → List Nat → Nat × Nat × Nat × Nat × Nat → Nat × Nat × Nat × Nat × Nat
  | _, [], st => st
  | i, w :: ws, (a, b, c, d, e) =>
      let temp := w32 (rotl32 5 a + sha1F i b c d + e + sha1K i + w)
      sha1Rounds (i + 1) ws (temp, a, rotl32 30 b, c, d)

def sha1Compress (h : Nat × Nat × Nat × Nat × Nat) (block : List Nat) :
    Nat × Nat × Nat × Nat × Nat :=
  let ws := sha1ExtendWords (bytesToWords block) 64
  let (h0, h1, h2, h3, h4) := h
  let (a, b, c, d, e) := sha1Rounds 0 ws (h0, h1, h2, h3, h4)
  (w32 (h0 + a), w32 (h1 + b), w32 (h2 + c), w32 (h3 + d), w32 (h4 + e))

def sha1 (msg : List Nat) : List Nat :=
  let padZeros := (119 - msg.length % 64) % 64
  let padded := msg ++ 0x80 :: List.replicate padZeros 0 ++ lenBytes64 (msg.length * 8)
  let (h0, h1, h2, h3, h4) :=
    (chunk64 padded).foldl sha1Compress
      (0x67452301, 0xEFCDAB89, 0x98BADCFE, 0x10325476, 0xC3D2E1F0)
  wordToBytes h0 ++ wordToBytes h1 ++ wordToBytes h2 ++ wordToBytes h3 ++ wordToBytes h4

/-- HMAC (RFC 2104) instantiated with SHA-1, block size 64 bytes. -/
def hmacSha1 (key msg : List Nat) : List Nat :=
  let key0 := if 64 < key.length then sha1 key else key
  let keyPadded := key0 ++ List.replicate (64 - key0.length) 0
  let ipadKey := keyPadded.map (· ^^^ 0x36)
  let opadKey := keyPadded.map (· ^^^ 0x5C)
  sha1 (opadKey ++ sha1 (ipadKey ++ msg))

/-! ## Hex rendering and JavaScript string primitives -/

def hexDigitLower (n : Nat) : Char := "0123456789abcdef".data.getD n '?'

def hexDigitUpper (n : Nat) : Char := "0123456789ABCDEF".data.getD n '?'

/-- Lowercase hex rendering of a byte string, as produced by the hex digest of the Node `crypto` HMAC object. -/
def bytesToHexLower (bs : List Nat) : Str :=
  bs.foldr (fun b acc => hexDigitLower (b / 16) :: hexDigitLower (b % 16) :: acc) []

/-- Uppercase hex rendering of a byte string (the "uppercase hexadecimal" of the spec). -/
def bytesToHexUpper (bs : List Nat) : Str :=
  bs.foldr (fun b acc => hexDigitUpper (b / 16) :: hexDigitUpper (b % 16) :: acc) []

/-- JavaScript `String.prototype.toUpperCase` restricted to ASCII letters. -/
def jsToUpperChar (c : Char) : Char :=
  if 97 ≤ c.toNat ∧ c.toNat ≤ 122 then Char.ofNat (c.toNat - 32) else c

def jsToUpperStr (s : Str) : Str := s.map jsToUpperChar

/-- UTF-8 encoding of one Unicode scalar value. -/
def utf8Encode (c : Char) : List Nat :=
  let n := c.toNat
  if n < 0x80 then [n]
  else if n < 0x800 then [0xC0 ||| n / 64, 0x80 ||| n % 64]
  else if n < 0x10000 then
    [0xE0 ||| n / 4096, 0x80 ||| n / 64 % 64, 0x80 ||| n % 64]
  else
    [0xF0 ||| n / 262144, 0x80 ||| n / 4096 % 64, 0x80 ||| n / 64 % 64, 0x80 ||| n % 64]

/-- The UTF-8 bytes of a string (the default Node encoding for `hmac.update`). -/
def strBytes (s : Str) : List Nat := s.foldr (fun c acc => utf8Encode c ++ acc) []

/-- Characters `encodeURIComponent` leaves unescaped: ASCII letters, digits,
and the nine marks hyphen, underscore, dot, bang, tilde, star, single quote,
and the two parentheses. -/
def isUriUnreserved (c : Char) : Bool :=
  (65 ≤ c.toNat && c.toNat ≤ 90) || (97 ≤ c.toNat && c.toNat ≤ 122) ||
  (48 ≤ c.toNat && c.toNat ≤ 57) ||
  c.toNat == 45 || c.toNat == 95 || c.toNat == 46 || c.toNat == 33 ||
  c.toNat == 126 || c.toNat == 42 || c.toNat == 39 || c.toNat == 40 || c.toNat == 41

/-- JavaScript `encodeURIComponent`: unreserved characters pass through, every
other character is replaced by the uppercase `%XX` encoding of its UTF-8 bytes. -/
def encodeURIComponent (s : Str) : Str :=
  s.foldr
    (fun c acc =>
      (if isUriUnreserved c then [c]
       else (utf8Encode c).foldr
         (fun b acc2 => '%' :: hexDigitUpper (b / 16) :: hexDigitUpper (b % 16) :: acc2) []) ++ acc)
    []

/-- JavaScript `String.prototype.split(sep)` for a one-character separator:
the list of (possibly empty) segments between separator occurrences. -/
def jsSplit (sep : Char) : Str → List Str
  | [] => [[]]
  | c :: rest =>
      if c = sep then [] :: jsSplit sep rest
      else
        match jsSplit sep rest with
        | s :: ss => (c :: s) :: ss
        | [] => [[c]]

/-- Whitespace characters removed by `String.prototype.trim`. -/
def jsIsSpace (c : Char) : Bool :=
  c.toNat == 32 || c.toNat == 9 || c.toNat == 10 || c.toNat == 13 ||
  c.toNat == 11 || c.toNat == 12 || c.toNat == 0xA0 || c.toNat == 0xFEFF

/-- JavaScript `String.prototype.trim`. -/
def jsTrim (s : Str) : Str :=
  ((s.dropWhile jsIsSpace).reverse.dropWhile jsIsSpace).reverse

/-- Lexicographic comparison of strings by code unit, the order used by the
default `Array.prototype.sort` comparator. -/
def strLtB : Str → Str → Bool
  | [], [] => false
  | [], _ :: _ => true
  | _ :: _, [] => false
  | a :: as, b :: bs =>
      if a.toNat < b.toNat then true
      else if b.toNat < a.toNat then false
      else strLtB as bs

def strLeB (a b : Str) : Bool := !(strLtB b a)

def insertSorted {α : Type} (le : α → α → Bool) (x : α) : List α → List α
  | [] => [x]
  | y :: ys => if le x y then x :: y :: ys else y :: insertSorted le x ys

/-- Stable insertion sort; models the observable result of `Array.prototype.sort`
(the sorted keys are pairwise distinct, so stability is immaterial). -/
def insertionSort {α : Type} (le : α → α → Bool) : List α → List α
  | [] => []
  | x :: xs => insertSorted le x (insertionSort le xs)

/-- Join string parts with a separator, as `Array.prototype.join`. -/
def joinSep (sep : Str) : List Str → Str
  | [] => []
  | [x] => x
  | x :: xs => x ++ sep ++ joinSep sep xs

def natToStr (n : Nat) : Str := (Nat.repr n).data

/-! ## Data model (src/src/index.ts, interfaces `User` and `SettingsTokens`) -/

structure User where
  id : Str
  firstName : Str
  lastName : Str
  email : Str
deriving DecidableEq

structure SettingsTokens where
  access_token : Str
  apiuser : Str
  language : Str
  openId : Str
  operateId : Str
  userId : Str
deriving DecidableEq

/-! ## Error message constants (src/src/constants.ts, `ERROR_MESSAGES`) -/

def NONCE_EXTRACTION_FAILED : Str := "Failed to extract nonce from login page".data

def LOGIN_FAILED : Str := "Login failed with status".data

def FETCH_USERS_FAILED : Str := "Failed to fetch users. Status".data

def FETCH_AUTHENTICATED_USER_FAILED : Str := "Failed to fetch authenticated user. Status".data

def FETCH_TOKENS_FAILED : Str := "Failed to fetch settings tokens".data

def TOKEN_EXTRACTION_FAILED : Str := "Failed to extract required tokens from settings page".data

/-! ## Cookie jar (`APIClient.parseCookies` / `APIClient.formatCookies`)

`this.cookies` is a JavaScript `Map<string,string>`; we model it as an
association list in insertion order: `Map.prototype.set` overwrites the value
of an existing key in place and appends a fresh key at the end. -/

abbrev Jar := List (Str × Str)

/-- Model of `Map.prototype.set` on the insertion-ordered association list:
an existing key keeps its position and gets the new value, a fresh key is
appended at the end. -/
def mapSet (jar : Jar) (k v : Str) : Jar :=
  if k ∈ jar.map Prod.fst then
    jar.map (fun p => if p.1 = k then (k, v) else p)
  else jar ++ [(k, v)]

def lookupJar (n : Str) : Jar → Option Str
  | [] => none
  | (k, v) :: rest => if k = n then some v else lookupJar n rest

/-- Processing of one entry inside `parseCookies`: take the first segment of
the split at `;`, split that segment at `=`, destructure the first two parts
as name and value, and store the trimmed pair when both parts are truthy (an
absent or empty destructured component is falsy, so nothing is stored). -/
def parseCookieEntry (cookieHeader : Str) : Option (Str × Str) :=
  if cookieHeader = [] then none
  else
    let cookiePart := (jsSplit ';' cookieHeader).headD []
    match jsSplit '=' cookiePart with
    | name :: value :: _ =>
        if name ≠ [] ∧ value ≠ [] then some (jsTrim name, jsTrim value) else none
    | _ => none

def absorbCookie (jar : Jar) (cookieHeader : Str) : Jar :=
  match parseCookieEntry cookieHeader with
  | some (n, v) => mapSet jar n v
  | none => jar

/-- Model of `APIClient.parseCookies`: absorb every entry of the `set-cookie` header
(`none` models an absent header; a single string value is the one-element list). -/
def parseCookies (jar : Jar) (setCookieHeaders : Option (List Str)) : Jar :=
  match setCookieHeaders with
  | none => jar
  | some cookieArray => cookieArray.foldl absorbCookie jar

/-- Model of `APIClient.formatCookies`: `name=value` pairs joined by a semicolon and a space. -/
def formatCookies (jar : Jar) : Str :=
  joinSep "; ".data (jar.map (fun p => p.1 ++ "=".data ++ p.2))

/-! ## Credential/Token extractor (`extractNonce`, `extractSettingsTokens`)

The patterns in `REGEX_PATTERNS` all have the shape
`attr="name"\s+value="([^"]+)"`; `String.prototype.match` without the `g` flag
returns the leftmost match, and `[^"]+` greedily captures the maximal nonempty
run of non-quote characters, which must be followed by a closing quote. -/

def matchAttrValueAt (attr nm : Str) (s : Str) : Option Str :=
  match List.dropPrefix? s (attr ++ "=\"".data ++ nm ++ "\"".data) with
  | none => none
  | some s1 =>
      let ws := s1.takeWhile jsIsSpace
      if ws = [] then none
      else
        match List.dropPrefix? (s1.drop ws.length) "value=\"".data with
        | none => none
        | some s2 =>
            let cap := s2.takeWhile (fun c => !(c == '"'))
            if cap ≠ [] ∧ (s2.drop cap.length).headD ' ' = '"' then some cap else none

/-- Leftmost match of the pattern `attr="nm"\s+value="([^"]+)"`, returning the
first capture group. -/
def matchAttrValue (attr nm : Str) : Str → Option Str
  | [] => none
  | s@(_ :: rest) =>
      match matchAttrValueAt attr nm s with
      | some cap => some cap
      | none => matchAttrValue attr nm rest

/-- Model of `REGEX_PATTERNS.NONCE`: `name="nonce"\s+value="([^"]+)"`. -/
def extractNonce (html : Str) : Option Str :=
  matchAttrValue "name".data "nonce".data html

/-- One of the six `id="…"\s+value="([^"]+)"` settings-token patterns. -/
def matchIdValue (nm : Str) (html : Str) : Option Str :=
  matchAttrValue "id".data nm html

/-- Model of `APIClient.extractSettingsTokens`: six independent pattern matches; if any
of them fails the whole call throws `TOKEN_EXTRACTION_FAILED`. -/
def extractSettingsTokens (html : Str) : Except Str SettingsTokens :=
  let accessTokenMatch := matchIdValue "access_token".data html
  let openIdMatch := matchIdValue "openId".data html
  let userIdMatch := matchIdValue "userId".data html
  let apiUserMatch := matchIdValue "apiuser".data html
  let operateIdMatch := matchIdValue "operateId".data html
  let languageMatch := matchIdValue "language".data html
  match accessTokenMatch, openIdMatch, userIdMatch,
        apiUserMatch, operateIdMatch, languageMatch with
  | some a, some o, some u, some ap, some op2, some l =>
      Except.ok { access_token := a, openId := o, userId := u,
                  apiuser := ap, operateId := op2, language := l }
  | _, _, _, _, _, _ => Except.error TOKEN_EXTRACTION_FAILED

/-! ## Signature engine (`APIClient.generateCheckcode`) -/

def SECRET_KEY : Str := "mys3cr3t".data

/-- The `payload` object literal of `generateCheckcode`, as the association list
of its properties in insertion order (`Object.keys` enumerates string keys in
insertion order). -/
def checkcodePayload (tokens : SettingsTokens) (timestamp : Str) : List (Str × Str) :=
  [("access_token".data, tokens.access_token),
   ("apiuser".data, tokens.apiuser),
   ("language".data, tokens.language),
   ("openId".data, tokens.openId),
   ("operateId".data, tokens.operateId),
   ("timestamp".data, timestamp),
   ("userId".data, tokens.userId)]

/-- Model of `APIClient.generateCheckcode`: sort `Object.keys(payload)`, render
`key=encodeURIComponent(value)` joined by `&`, HMAC-SHA1 with the fixed secret
key `SECRET_KEY`, lowercase hex digest, `toUpperCase()`. -/
def generateCheckcode (tokens : SettingsTokens) (timestamp : Str) : Str :=
  let payload := checkcodePayload tokens timestamp
  let sortedParams :=
    joinSep "&".data
      ((insertionSort strLeB (payload.map Prod.fst)).map
        (fun key => key ++ "=".data ++ encodeURIComponent ((lookupJar key payload).getD [])))
  jsToUpperStr (bytesToHexLower (hmacSha1 (strBytes SECRET_KEY) (strBytes sortedParams)))

/-! ## Session orchestrator (`APIClient` methods and `main`)

The transport is an external collaborator: an `Env` collects the responses the
single run receives (status codes, bodies, the parse results of the JSON
bodies) and the clock reading, and each step is a pure function of it. -/

def HTTP_STATUS_OK : Nat := 200

def HTTP_STATUS_FOUND : Nat := 302

structure Env where
  loginPageBody : Str
  loginStatus : Nat
  usersStatus : Nat
  usersBody : Except Str (List User)
  tokensStatus : Nat
  tokensBody : Str
  settingsStatus : Nat
  settingsBody : Except Str User
  nowMs : Nat

/-- Error text `` `${msg}: ${status}` ``. -/
def statusMsg (msg : Str) (status : Nat) : Str := msg ++ ": ".data ++ natToStr status

/-- Model of `APIClient.getLoginNonce`: extract the nonce from the login page body;
the status code is not inspected. -/
def getLoginNonce (env : Env) : Except Str Str :=
  match extractNonce env.loginPageBody with
  | some nonce => Except.ok nonce
  | none => Except.error NONCE_EXTRACTION_FAILED

/-- Model of `APIClient.login`: POST the credentials; `302 Found` is the only success
status, anything else throws with the status code in the message.  The form
body only influences the external server, so it does not appear here. -/
def login (env : Env) (_nonce _username _password : Str) : Except Str Bool :=
  if env.loginStatus = HTTP_STATUS_FOUND then Except.ok true
  else Except.error (statusMsg LOGIN_FAILED env.loginStatus)

/-- Model of `APIClient.fetchUsers`: requires status `200`, then `JSON.parse` of the
body (whose outcome is `env.usersBody`). -/
def fetchUsers (env : Env) : Except Str (List User) :=
  if env.usersStatus = HTTP_STATUS_OK then env.usersBody
  else Except.error (statusMsg FETCH_USERS_FAILED env.usersStatus)

/-- Model of `APIClient.getSettingsTokens`: requires status `200`, then extracts the
six tokens from the page body. -/
def getSettingsTokens (env : Env) : Except Str SettingsTokens :=
  if env.tokensStatus ≠ HTTP_STATUS_OK then
    Except.error (statusMsg FETCH_TOKENS_FAILED env.tokensStatus)
  else extractSettingsTokens env.tokensBody

/-- The `URLSearchParams` initializer of `fetchAuthenticatedUser`, in source
property order. -/
def signedFormFields (tokens : SettingsTokens) (timestamp checkcode : Str) : List (Str × Str) :=
  [("access_token".data, tokens.access_token),
   ("apiuser".data, tokens.apiuser),
   ("language".data, tokens.language),
   ("openId".data, tokens.openId),
   ("operateId".data, tokens.operateId),
   ("timestamp".data, timestamp),
   ("userId".data, tokens.userId),
   ("checkcode".data, checkcode)]

/-- The signed form built inside `fetchAuthenticatedUser`:
`timestamp = Math.floor(Date.now() / 1000).toString()` is computed once, the
checkcode is computed from it, and both go into the same form. -/
def authRequestForm (tokens : SettingsTokens) (nowMs : Nat) : List (Str × Str) :=
  let timestamp := natToStr (nowMs / 1000)
  let checkcode := generateCheckcode tokens timestamp
  signedFormFields tokens timestamp checkcode

/-- Model of `APIClient.fetchAuthenticatedUser`: harvest tokens, build the signed form,
POST it to the API origin, require status `200`, `JSON.parse` the body. -/
def fetchAuthenticatedUser (env : Env) : Except Str User := do
  let tokens ← getSettingsTokens env
  let _formData := authRequestForm tokens env.nowMs
  if env.settingsStatus = HTTP_STATUS_OK then env.settingsBody
  else Except.error (statusMsg FETCH_AUTHENTICATED_USER_FAILED env.settingsStatus)

/-- The merge step of `APIClient.fetchAllUsers`:
`users.find(u => u.id === s.id || u.email === s.email)`; push `s` only when
no such entry exists. -/
def mergeUsers (users : List User) (settingsUser : User) : List User :=
  match users.find?
      (fun u => decide (u.id = settingsUser.id) || decide (u.email = settingsUser.email)) with
  | some _ => users
  | none => users ++ [settingsUser]

/-- Model of `APIClient.fetchAllUsers`: bulk fetch, then the signed fetch, then merge. -/
def fetchAllUsers (env : Env) : Except Str (List User) := do
  let users ← fetchUsers env
  let settingsUser ← fetchAuthenticatedUser env
  pure (mergeUsers users settingsUser)

def DEFAULT_USERNAME : Str := "demo@example.org".data

def DEFAULT_PASSWORD : Str := "test".data

/-- The `try` block of `main`: nonce, login, fetch-all. -/
def runPipeline (env : Env) : Except Str (List User) := do
  let nonce ← getLoginNonce env
  let _ ← login env nonce DEFAULT_USERNAME DEFAULT_PASSWORD
  fetchAllUsers env

/-- Model of `main`: the first component is the run outcome (the `catch` branch
re-surfaces the error), the second is the content of the output JSON file, or
`none` when `saveUsersToFile` was never reached. -/
def mainRun (env : Env) : Except Str (List User) × Option (List User) :=
  match runPipeline env with
  | Except.ok users => (Except.ok users, some users)
  | Except.error e => (Except.error e, none)

/-! ## Specification-side definitions

These follow the wording of the spec (not the source) and exist to be compared
with the source-derived definitions above. -/

/-- Modelled from the spec (§4.3): the seven signed fields — the six
`SettingsTokens` fields plus `timestamp` — listed with their names in ASCII
lexicographic order. -/
def checkcodeCanonicalFields (tokens : SettingsTokens) (timestamp : Str) : List (Str × Str) :=
  [("access_token".data, tokens.access_token),
   ("apiuser".data, tokens.apiuser),
   ("language".data, tokens.language),
   ("openId".data, tokens.openId),
   ("operateId".data, tokens.operateId),
   ("timestamp".data, timestamp),
   ("userId".data, tokens.userId)]

/-- Modelled from the spec (§4.3): percent-encode each value, join the fields
as `key=value` with `&` separators in sorted-name order, HMAC the byte string
with the fixed secret key, render the digest as uppercase hexadecimal. -/
def checkcodeSpec (tokens : SettingsTokens) (timestamp : Str) : Str :=
  bytesToHexUpper
    (hmacSha1 (strBytes SECRET_KEY)
      (strBytes
        (joinSep "&".data
          ((checkcodeCanonicalFields tokens timestamp).map
            (fun p => p.1 ++ "=".data ++ encodeURIComponent p.2)))))

/-- Strict ASCII-lexicographic sortedness of a list of strings. -/
def strictSortedBy : List Str → Bool
  | [] => true
  | [_] => true
  | a :: b :: rest => strLtB a b && strictSortedBy (b :: rest)

/-- Redirect-class HTTP status. -/
def isRedirectStatus (s : Nat) : Prop := 300 ≤ s ∧ s ≤ 399

def orElseO (a b : Option Str) : Option Str :=
  match a with
  | some x => some x
  | none => b

/-- The name/value pair entry `e` stores under name `n`, if any. -/
def entryValueFor (n e : Str) : Option Str :=
  match parseCookieEntry e with
  | some p => if p.1 = n then some p.2 else none
  | none => none

/-- The value stored by the last entry of `entries` that stores under name `n`
(the "last-absorbed value for duplicate names" of the spec): entries further down
the list take precedence. -/
def lastValueFor (n : Str) : List Str → Option Str
  | [] => none
  | e :: rest => orElseO (lastValueFor n rest) (entryValueFor n e)

/-! ## Sample fixtures (used by witnesses) -/

def sampleTokens : SettingsTokens :=
  { access_token := "AT1".data, apiuser := "U1".data, language := "en".data,
    openId := "O1".data, operateId := "OP1".data, userId := "111".data }

def sampleUser : User :=
  { id := "1".data, firstName := "John".data, lastName := "Doe".data,
    email := "a@x.com".data }

def sampleEnv : Env :=
  { loginPageBody := [], loginStatus := 302, usersStatus := 200,
    usersBody := Except.ok [], tokensStatus := 200, tokensBody := [],
    settingsStatus := 200, settingsBody := Except.ok sampleUser, nowMs := 0 }

/-! ## Byte-range and hex lemmas -/

theorem wordToBytes_lt (w : Nat) : ∀ b ∈ wordToBytes w, b < 256 := by
  intro b hb
  simp only [wordToBytes, List.mem_cons, List.not_mem_nil, or_false] at hb
  rcases hb with h | h | h | h <;> subst h <;> omega

theorem sha1_byte_lt (msg : List Nat) : ∀ b ∈ sha1 msg, b < 256 := by
  intro b hb
  simp only [sha1, List.mem_append] at hb
  rcases hb with ((((h | h) | h) | h) | h) <;> exact wordToBytes_lt _ _ h

theorem hmacSha1_byte_lt (key msg : List Nat) : ∀ b ∈ hmacSha1 key msg, b < 256 := by
  simp only [hmacSha1]
  exact sha1_byte_lt _

theorem jsToUpper_hexDigitLower : ∀ n < 16, jsToUpperChar (hexDigitLower n) = hexDigitUpper n := by
  decide

theorem jsToUpperStr_bytesToHexLower (bs : List Nat) (h : ∀ b ∈ bs, b < 256) :
    jsToUpperStr (bytesToHexLower bs) = bytesToHexUpper bs := by
  induction bs with
  | nil => rfl
  | cons b rest ih =>
      have hb : b < 256 := h b (List.mem_cons_self b rest)
      have h1 : b / 16 < 16 := by omega
      have h2 : b % 16 < 16 := by omega
      simp only [bytesToHexLower, bytesToHexUpper, List.foldr_cons, jsToUpperStr,
        List.map_cons] at *
      rw [jsToUpper_hexDigitLower _ h1, jsToUpper_hexDigitLower _ h2]
      exact congrArg₂ _ rfl (congrArg₂ _ rfl (ih (fun x hx => h x (List.mem_cons_of_mem _ hx))))

/-- C1: `generateCheckcode(tokens, timestamp)` builds the seven string fields
(the six `SettingsTokens` fields plus `timestamp`), sorts the field names
lexicographically by ASCII byte order, percent-encodes each value and joins
them as `key=value` pairs with `&` separators, computes HMAC-SHA1 with the
fixed secret key over that exact byte string, and returns the digest as
uppercase hexadecimal — for every tokens record and timestamp string.  The
canonical field list is the sorted rendering of the seven built fields. -/
theorem generateCheckcode_matches_spec (tokens : SettingsTokens) (timestamp : Str) :
    generateCheckcode tokens timestamp = checkcodeSpec tokens timestamp ∧
    strictSortedBy ((checkcodeCanonicalFields tokens timestamp).map Prod.fst) = true ∧
    (checkcodePayload tokens timestamp).Perm (checkcodeCanonicalFields tokens timestamp) := by
  refine ⟨?_, rfl, List.Perm.refl _⟩
  simp only [generateCheckcode, checkcodeSpec]
  rw [jsToUpperStr_bytesToHexLower _ (hmacSha1_byte_lt _ _)]
  rfl

/-- C2: signing is pure and deterministic — two calls of `generateCheckcode`
that agree on the six token fields and the timestamp return the same
checkcode; the result depends on nothing but those seven values. -/
theorem generateCheckcode_deterministic (t1 t2 : SettingsTokens) (ts1 ts2 : Str)
    (h1 : t1.access_token = t2.access_token) (h2 : t1.apiuser = t2.apiuser)
    (h3 : t1.language = t2.language) (h4 : t1.openId = t2.openId)
    (h5 : t1.operateId = t2.operateId) (h6 : t1.userId = t2.userId)
    (h7 : ts1 = ts2) :
    generateCheckcode t1 ts1 = generateCheckcode t2 ts2 := by
  cases t1
  cases t2
  simp only at h1 h2 h3 h4 h5 h6
  subst h1 h2 h3 h4 h5 h6 h7
  rfl

theorem generateCheckcode_deterministic_witness :
    sampleTokens.access_token = sampleTokens.access_token ∧
    generateCheckcode sampleTokens "1700000000".data =
      generateCheckcode sampleTokens "1700000000".data :=
  ⟨rfl, generateCheckcode_deterministic sampleTokens sampleTokens
    "1700000000".data "1700000000".data rfl rfl rfl rfl rfl rfl rfl⟩

/-- C3: `extractSettingsTokens` is atomic — it returns a full six-field record
exactly when all six patterns match (with exactly the matched captures), and
as soon as any one pattern fails to match it fails as a whole with the
extraction error, never with a partial token set. -/
theorem extractSettingsTokens_atomic (html : Str) :
    ((∃ t, extractSettingsTokens html = Except.ok t) ↔
      ((matchIdValue "access_token".data html).isSome ∧
       (matchIdValue "openId".data html).isSome ∧
       (matchIdValue "userId".data html).isSome ∧
       (matchIdValue "apiuser".data html).isSome ∧
       (matchIdValue "operateId".data html).isSome ∧
       (matchIdValue "language".data html).isSome)) ∧
    (∀ t, extractSettingsTokens html = Except.ok t →
      (matchIdValue "access_token".data html = some t.access_token ∧
       matchIdValue "openId".data html = some t.openId ∧
       matchIdValue "userId".data html = some t.userId ∧
       matchIdValue "apiuser".data html = some t.apiuser ∧
       matchIdValue "operateId".data html = some t.operateId ∧
       matchIdValue "language".data html = some t.language)) ∧
    ((matchIdValue "access_token".data html = none ∨
      matchIdValue "openId".data html = none ∨
      matchIdValue "userId".data html = none ∨
      matchIdValue "apiuser".data html = none ∨
      matchIdValue "operateId".data html = none ∨
      matchIdValue "language".data html = none) →
      extractSettingsTokens html = Except.error TOKEN_EXTRACTION_FAILED) := by
  simp only [extractSettingsTokens]
  rcases h1 : matchIdValue "access_token".data html with _ | a <;>
  rcases h2 : matchIdValue "openId".data html with _ | o <;>
  rcases h3 : matchIdValue "userId".data html with _ | u <;>
  rcases h4 : matchIdValue "apiuser".data html with _ | ap <;>
  rcases h5 : matchIdValue "operateId".data html with _ | op2 <;>
  rcases h6 : matchIdValue "language".data html with _ | l <;>
  simp_all

theorem extractSettingsTokens_atomic_witness :
    extractSettingsTokens [] = Except.error TOKEN_EXTRACTION_FAILED :=
  (extractSettingsTokens_atomic []).2.2 (Or.inl rfl)

/-- C4: `login` succeeds only with a redirect-class status code (the code
accepts exactly `302`, which is redirect-class); every status outside the
redirect class — in particular `200` — fails with that status code embedded in
the error message. -/
theorem login_redirect_contract :
    (∀ env n u p, (∃ b, login env n u p = Except.ok b) → isRedirectStatus env.loginStatus) ∧
    (∀ env n u p, ¬ isRedirectStatus env.loginStatus →
      login env n u p = Except.error (statusMsg LOGIN_FAILED env.loginStatus)) ∧
    (∀ env n u p, env.loginStatus = 200 →
      login env n u p = Except.error (statusMsg LOGIN_FAILED env.loginStatus)) := by
  refine ⟨?_, ?_, ?_⟩ <;> intro env n u p h
  · obtain ⟨b, hb⟩ := h
    simp only [login] at hb
    split at hb
    · next hs => rw [hs]; exact ⟨by decide, by decide⟩
    · exact absurd hb (by simp)
  · simp only [login]
    split
    · next hs => exact absurd (show isRedirectStatus env.loginStatus by rw [hs]; exact ⟨by decide, by decide⟩) h
    · rfl
  · simp only [login]
    split
    · next hs => rw [h] at hs; exact absurd hs (by decide)
    · rfl

def sampleEnv200 : Env := { sampleEnv with loginStatus := 200 }

theorem login_redirect_contract_witness :
    login sampleEnv200 [] [] [] = Except.error (statusMsg LOGIN_FAILED sampleEnv200.loginStatus) :=
  login_redirect_contract.2.2 sampleEnv200 [] [] [] rfl

/-! ## Split/cookie lemmas for the jar claims -/

theorem jsSplit_structure (sep : Char) (s : Str) :
    jsSplit sep s =
      s.takeWhile (fun c => !(c == sep)) ::
        (if s.dropWhile (fun c => !(c == sep)) = [] then []
         else jsSplit sep ((s.dropWhile (fun c => !(c == sep))).drop 1)) := by
  induction s with
  | nil => simp [jsSplit]
  | cons c rest ih =>
      by_cases hc : c = sep
      · subst hc
        simp [jsSplit, List.takeWhile_cons, List.dropWhile_cons]
      · have hbeq : (c == sep) = false := by simp [hc]
        simp only [jsSplit, if_neg hc, List.takeWhile_cons, List.dropWhile_cons, hbeq,
          Bool.not_false, if_true, ih]

theorem takeWhile_eq_self_of_dropWhile_nil {p : Char → Bool} {s : Str}
    (h : s.dropWhile p = []) : s.takeWhile p = s := by
  conv_rhs => rw [← List.takeWhile_append_dropWhile p s]
  rw [h, List.append_nil]

theorem drop_takeWhile_length {p : Char → Bool} (s : Str) :
    s.drop (s.takeWhile p).length = s.dropWhile p := by
  have h1 : List.drop (s.takeWhile p).length (s.takeWhile p ++ s.dropWhile p) = s.dropWhile p :=
    List.drop_left _ _
  rwa [List.takeWhile_append_dropWhile] at h1

theorem takeWhile_length_lt_of_dropWhile_ne_nil {p : Char → Bool} {s : Str}
    (h : s.dropWhile p ≠ []) : (s.takeWhile p).length < s.length := by
  have hsplit := List.takeWhile_append_dropWhile p s
  have : (s.takeWhile p).length + (s.dropWhile p).length = s.length := by
    rw [← List.length_append, hsplit]
  have : 0 < (s.dropWhile p).length := List.length_pos.mpr h
  omega

/-- C5 (amended): each absorbed entry is split at the first `;`; that prefix is
split on `=`; the stored name is the segment before the first `=` and the
stored value is the segment between the first and the second `=` (a value that
itself contains `=` is truncated there, not stored in full); both are trimmed;
the pair is stored (overwriting) exactly when the prefix contains `=` and both
raw segments are non-empty. -/
theorem absorbCookie_first_split_spec (jar : Jar) (h : Str) :
    absorbCookie jar h =
      (let p := h.takeWhile (fun c => !(c == ';'))
       let n := p.takeWhile (fun c => !(c == '='))
       let v := (p.drop (n.length + 1)).takeWhile (fun c => !(c == '='))
       if n.length < p.length ∧ n ≠ [] ∧ v ≠ [] then mapSet jar (jsTrim n) (jsTrim v) else jar) := by
  simp only [absorbCookie, parseCookieEntry]
  by_cases hh : h = []
  · subst hh
    simp
  · rw [if_neg hh, jsSplit_structure ';' h]
    simp only [List.headD_cons]
    by_cases hdw : (h.takeWhile (fun c => !(c == ';'))).dropWhile (fun c => !(c == '=')) = []
    · have hself := takeWhile_eq_self_of_dropWhile_nil hdw
      rw [jsSplit_structure '=' _, if_pos hdw, hself]
      simp
    · have hlt := takeWhile_length_lt_of_dropWhile_ne_nil hdw
      have hrest : ((h.takeWhile (fun c => !(c == ';'))).dropWhile (fun c => !(c == '='))).drop 1 =
          (h.takeWhile (fun c => !(c == ';'))).drop
            (((h.takeWhile (fun c => !(c == ';'))).takeWhile (fun c => !(c == '='))).length + 1) := by
        rw [← drop_takeWhile_length (p := fun c => !(c == '=')), List.drop_drop, Nat.add_comm]
      rw [jsSplit_structure '=' _, if_neg hdw, jsSplit_structure '=' _, hrest]
      simp only [hlt, true_and]
      split
      · rename_i n v hcond
        split at hcond
        · rename_i hA
          simp only [Option.some.injEq, Prod.mk.injEq] at hcond
          obtain ⟨hn, hv⟩ := hcond
          subst hn hv
          rw [if_pos hA]
        · simp at hcond
      · rename_i hcond
        split at hcond
        · simp at hcond
        · rename_i hA
          rw [if_neg hA]

/-- C5 counterexample: for the entry `a=b=c` the code stores the value `b`
(the text between the first and the second `=`), not `b=c` (the full text up
to the first `;`) as the claim states. -/
theorem absorbCookie_claim_counterexample :
    absorbCookie [] "a=b=c".data = [("a".data, "b".data)] ∧
    absorbCookie [] "a=b=c".data ≠ [("a".data, "b=c".data)] := by
  refine ⟨rfl, ?_⟩
  decide

/-! ## Jar invariant lemmas -/

theorem lookupJar_append (n : Str) (l1 l2 : Jar) :
    lookupJar n (l1 ++ l2) = orElseO (lookupJar n l1) (lookupJar n l2) := by
  induction l1 with
  | nil => rfl
  | cons p rest ih =>
      obtain ⟨k, v⟩ := p
      simp only [List.cons_append, lookupJar]
      by_cases hk : k = n
      · rw [if_pos hk, if_pos hk]; rfl
      · rw [if_neg hk, if_neg hk]; exact ih

theorem lookupJar_map_update_ne (jar : Jar) (k v n : Str) (hkn : k ≠ n) :
    lookupJar n (jar.map (fun p => if p.1 = k then (k, v) else p)) = lookupJar n jar := by
  induction jar with
  | nil => rfl
  | cons p rest ih =>
      obtain ⟨k0, v0⟩ := p
      simp only [List.map_cons]
      by_cases h0 : k0 = k
      · subst h0
        rw [if_pos rfl, lookupJar, lookupJar, if_neg hkn, if_neg hkn]
        exact ih
      · rw [if_neg (by simpa using h0), lookupJar, lookupJar]
        by_cases hq : k0 = n
        · rw [if_pos hq, if_pos hq]
        · rw [if_neg hq, if_neg hq]
          exact ih

theorem lookupJar_map_update_eq (jar : Jar) (k v : Str) (hc : k ∈ jar.map Prod.fst) :
    lookupJar k (jar.map (fun p => if p.1 = k then (k, v) else p)) = some v := by
  induction jar with
  | nil => simp at hc
  | cons p rest ih =>
      obtain ⟨k0, v0⟩ := p
      simp only [List.map_cons]
      by_cases h0 : k0 = k
      · subst h0
        rw [if_pos rfl, lookupJar, if_pos rfl]
      · rw [if_neg (by simpa using h0), lookupJar, if_neg h0]
        have hmem : k ∈ rest.map Prod.fst := by
          simp only [List.map_cons, List.mem_cons] at hc
          rcases hc with h | h
          · exact absurd h.symm h0
          · exact h
        exact ih hmem

theorem lookupJar_map_update (jar : Jar) (k v n : Str)
    (hc : k ∈ jar.map Prod.fst) :
    lookupJar n (jar.map (fun p => if p.1 = k then (k, v) else p)) =
      if k = n then some v else lookupJar n jar := by
  by_cases hkn : k = n
  · subst hkn
    rw [if_pos rfl]
    exact lookupJar_map_update_eq jar k v hc
  · rw [if_neg hkn]
    exact lookupJar_map_update_ne jar k v n hkn

theorem orElseO_none_right (a : Option Str) : orElseO a none = a := by
  cases a <;> rfl

theorem orElseO_assoc (a b c : Option Str) :
    orElseO (orElseO a b) c = orElseO a (orElseO b c) := by
  cases a <;> rfl

theorem lookupJar_eq_none (jar : Jar) (n : Str) (h : n ∉ jar.map Prod.fst) :
    lookupJar n jar = none := by
  induction jar with
  | nil => rfl
  | cons p rest ih =>
      obtain ⟨k, v⟩ := p
      simp only [List.map_cons, List.mem_cons] at h
      push_neg at h
      rw [lookupJar, if_neg (fun hk => h.1 hk.symm)]
      exact ih h.2

theorem lookupJar_mapSet (jar : Jar) (k v n : Str) :
    lookupJar n (mapSet jar k v) = if k = n then some v else lookupJar n jar := by
  unfold mapSet
  by_cases hc : k ∈ jar.map Prod.fst
  · rw [if_pos hc]
    exact lookupJar_map_update jar k v n hc
  · rw [if_neg hc, lookupJar_append]
    by_cases hkn : k = n
    · subst hkn
      rw [lookupJar_eq_none jar k hc, if_pos rfl, lookupJar, if_pos rfl]
      rfl
    · rw [if_neg hkn]
      have : lookupJar n [(k, v)] = none := by
        rw [lookupJar, if_neg hkn]
        rfl
      rw [this, orElseO_none_right]

theorem keys_mapSet (jar : Jar) (k v : Str) :
    (mapSet jar k v).map Prod.fst =
      if k ∈ jar.map Prod.fst then jar.map Prod.fst else jar.map Prod.fst ++ [k] := by
  unfold mapSet
  by_cases hc : k ∈ jar.map Prod.fst
  · rw [if_pos hc, if_pos hc, List.map_map]
    refine List.map_congr_left ?_
    intro p _
    by_cases hp : p.1 = k
    · simp [Function.comp, hp]
    · simp [Function.comp, hp]
  · rw [if_neg hc, if_neg hc]
    simp

theorem nodup_keys_mapSet (jar : Jar) (k v : Str)
    (h : (jar.map Prod.fst).Nodup) : ((mapSet jar k v).map Prod.fst).Nodup := by
  rw [keys_mapSet]
  split
  · exact h
  · next hc => simp [List.nodup_append, h, hc]

theorem nodup_keys_foldl_absorb (entries : List Str) (jar : Jar)
    (h : (jar.map Prod.fst).Nodup) :
    ((entries.foldl absorbCookie jar).map Prod.fst).Nodup := by
  induction entries generalizing jar with
  | nil => exact h
  | cons e rest ih =>
      rw [List.foldl_cons]
      refine ih _ ?_
      unfold absorbCookie
      cases hp : parseCookieEntry e with
      | none => exact h
      | some p => exact nodup_keys_mapSet _ _ _ h

theorem lookupJar_foldl_absorb (entries : List Str) (jar : Jar) (n : Str) :
    lookupJar n (entries.foldl absorbCookie jar) =
      orElseO (lastValueFor n entries) (lookupJar n jar) := by
  induction entries generalizing jar with
  | nil => rfl
  | cons e rest ih =>
      rw [List.foldl_cons, ih, lastValueFor, orElseO_assoc]
      congr 1
      unfold absorbCookie entryValueFor
      cases hp : parseCookieEntry e with
      | none => rfl
      | some p =>
          obtain ⟨k, v⟩ := p
          rw [lookupJar_mapSet]
          by_cases hk : k = n <;> simp [hk, orElseO]

theorem mem_iff_lookupJar (jar : Jar) (h : (jar.map Prod.fst).Nodup) (n v : Str) :
    (n, v) ∈ jar ↔ lookupJar n jar = some v := by
  induction jar with
  | nil => simp [lookupJar]
  | cons p rest ih =>
      obtain ⟨k, w⟩ := p
      simp only [List.map_cons, List.nodup_cons] at h
      obtain ⟨hk_notin, hrest⟩ := h
      simp only [List.mem_cons, lookupJar]
      by_cases hk : k = n
      · subst hk
        rw [if_pos rfl]
        constructor
        · rintro (heq | hmem)
          · rw [(Prod.mk.injEq _ _ _ _).mp heq.symm |>.2]
          · exact absurd (List.mem_map_of_mem Prod.fst hmem) hk_notin
        · intro hv
          left
          simp only [Option.some.injEq] at hv
          rw [hv]
      · rw [if_neg hk]
        rw [← ih hrest]
        constructor
        · rintro (heq | hmem)
          · exact absurd ((Prod.mk.injEq _ _ _ _).mp heq).1.symm hk
          · exact hmem
        · intro hmem
          right
          exact hmem

/-- C6: for every sequence of absorbed `set-cookie` entries, the jar holds
exactly one pair per distinct cookie name (its key list has no duplicates), a
pair belongs to the jar exactly when its value is the last one absorbed for
that name, and rendering joins the `name=value` pairs of the jar with `; ` in
the iteration order of the jar. -/
theorem cookieJar_last_value_render (entries : List Str) :
    ((parseCookies [] (some entries)).map Prod.fst).Nodup ∧
    (∀ n v, ((n, v) ∈ parseCookies [] (some entries)) ↔ lastValueFor n entries = some v) ∧
    formatCookies (parseCookies [] (some entries)) =
      joinSep "; ".data ((parseCookies [] (some entries)).map
        (fun p => p.1 ++ "=".data ++ p.2)) := by
  simp only [parseCookies]
  have hnodup := nodup_keys_foldl_absorb entries [] (by simp)
  refine ⟨hnodup, ?_, rfl⟩
  intro n v
  rw [mem_iff_lookupJar _ hnodup, lookupJar_foldl_absorb, lookupJar, orElseO_none_right]

/-- C7: the signed form built by `fetchAuthenticatedUser` carries exactly one
timestamp, derived from the single clock reading taken before signing, and its
`checkcode` field is the checkcode computed from that very timestamp — the
signed request never carries a different timestamp than the one signed. -/
theorem authRequestForm_single_timestamp (tokens : SettingsTokens) (nowMs : Nat) :
    ∃ ts, lookupJar "timestamp".data (authRequestForm tokens nowMs) = some ts ∧
      lookupJar "checkcode".data (authRequestForm tokens nowMs) =
        some (generateCheckcode tokens ts) ∧
      ts = natToStr (nowMs / 1000) :=
  ⟨natToStr (nowMs / 1000), rfl, rfl, rfl⟩

/-- C8: merging the bulk list with the authenticated user appends the latter
exactly when no bulk entry shares its id or email; otherwise the bulk list is
returned unchanged — order preserved, no entry modified. -/
theorem mergeUsers_dedup_append (users : List User) (settingsUser : User) :
    mergeUsers users settingsUser =
      if ∃ u ∈ users, u.id = settingsUser.id ∨ u.email = settingsUser.email then users
      else users ++ [settingsUser] := by
  unfold mergeUsers
  cases hf : users.find?
      (fun u => decide (u.id = settingsUser.id) || decide (u.email = settingsUser.email)) with
  | none =>
      have hno : ¬ ∃ u ∈ users, u.id = settingsUser.id ∨ u.email = settingsUser.email := by
        rw [List.find?_eq_none] at hf
        rintro ⟨u, hu, hor⟩
        have := hf u hu
        simp only [Bool.or_eq_true, decide_eq_true_eq] at this
        exact this (by tauto)
      rw [if_neg hno]
  | some u =>
      have hmem := List.mem_of_find?_eq_some hf
      have hp := List.find?_some hf
      simp only [Bool.or_eq_true, decide_eq_true_eq] at hp
      rw [if_pos ⟨u, hmem, hp⟩]

theorem mainRun_none_of_error (env : Env) (e : Str)
    (h : runPipeline env = Except.error e) : (mainRun env).2 = none := by
  simp [mainRun, h]

theorem fetchAuthenticatedUser_error_of_tokens (env : Env) (e : Str)
    (h : getSettingsTokens env = Except.error e) :
    fetchAuthenticatedUser env = Except.error e := by
  simp [fetchAuthenticatedUser, h, Bind.bind, Except.bind]

/-- C9: if any pipeline step — nonce extraction, login, token harvest, bulk
fetch, or the signed fetch — fails, the run surfaces that failure and the
output file is not written; the file carries the full merged collection only
when every step succeeded. -/
theorem pipeline_no_partial_output (env : Env) :
    (∀ e, runPipeline env = Except.error e → mainRun env = (Except.error e, none)) ∧
    (∀ l, (mainRun env).2 = some l →
      (mainRun env).1 = Except.ok l ∧ runPipeline env = Except.ok l) ∧
    ((∃ e, getLoginNonce env = Except.error e) → (mainRun env).2 = none) ∧
    ((∃ e n, getLoginNonce env = Except.ok n ∧
        login env n DEFAULT_USERNAME DEFAULT_PASSWORD = Except.error e) →
      (mainRun env).2 = none) ∧
    ((∃ e, fetchUsers env = Except.error e) → (mainRun env).2 = none) ∧
    ((∃ e, getSettingsTokens env = Except.error e) → (mainRun env).2 = none) ∧
    ((∃ e, fetchAuthenticatedUser env = Except.error e) → (mainRun env).2 = none) := by
  refine ⟨?_, ?_, ?_, ?_, ?_, ?_, ?_⟩
  · intro e h
    simp [mainRun, h]
  · intro l h
    rcases hr : runPipeline env with e | us <;> simp [mainRun, hr] at h ⊢
    rw [← h]
  · rintro ⟨e, he⟩
    exact mainRun_none_of_error env e (by simp [runPipeline, he, Bind.bind, Except.bind])
  · rintro ⟨e, n, hn, hl⟩
    exact mainRun_none_of_error env e
      (by simp [runPipeline, hn, hl, Bind.bind, Except.bind])
  · rintro ⟨e, he⟩
    rcases hn : getLoginNonce env with e' | n
    · exact mainRun_none_of_error env e' (by simp [runPipeline, hn, Bind.bind, Except.bind])
    · rcases hl : login env n DEFAULT_USERNAME DEFAULT_PASSWORD with e' | b
      · exact mainRun_none_of_error env e'
          (by simp [runPipeline, hn, hl, Bind.bind, Except.bind])
      · exact mainRun_none_of_error env e
          (by simp [runPipeline, fetchAllUsers, hn, hl, he, Bind.bind, Except.bind])
  · rintro ⟨e, he⟩
    have hauth := fetchAuthenticatedUser_error_of_tokens env e he
    rcases hn : getLoginNonce env with e' | n
    · exact mainRun_none_of_error env e' (by simp [runPipeline, hn, Bind.bind, Except.bind])
    · rcases hl : login env n DEFAULT_USERNAME DEFAULT_PASSWORD with e' | b
      · exact mainRun_none_of_error env e'
          (by simp [runPipeline, hn, hl, Bind.bind, Except.bind])
      · rcases hu : fetchUsers env with e' | us
        · exact mainRun_none_of_error env e'
            (by simp [runPipeline, fetchAllUsers, hn, hl, hu, Bind.bind, Except.bind])
        · exact mainRun_none_of_error env e
            (by simp [runPipeline, fetchAllUsers, hn, hl, hu, hauth, Bind.bind, Except.bind])
  · rintro ⟨e, he⟩
    rcases hn : getLoginNonce env with e' | n
    · exact mainRun_none_of_error env e' (by simp [runPipeline, hn, Bind.bind, Except.bind])
    · rcases hl : login env n DEFAULT_USERNAME DEFAULT_PASSWORD with e' | b
      · exact mainRun_none_of_error env e'
          (by simp [runPipeline, hn, hl, Bind.bind, Except.bind])
      · rcases hu : fetchUsers env with e' | us
        · exact mainRun_none_of_error env e'
            (by simp [runPipeline, fetchAllUsers, hn, hl, hu, Bind.bind, Except.bind])
        · exact mainRun_none_of_error env e
            (by simp [runPipeline, fetchAllUsers, hn, hl, hu, he, Bind.bind, Except.bind])

theorem pipeline_no_partial_output_witness : (mainRun sampleEnv).2 = none :=
  (pipeline_no_partial_output sampleEnv).2.2.1 ⟨NONCE_EXTRACTION_FAILED, rfl⟩

/-- C10: `getSettingsTokens`, `fetchUsers` and `fetchAuthenticatedUser` each
succeed only when their response status is exactly `200`; any other status —
including other 2xx codes such as `201` — produces an error that embeds the
status code. -/
theorem fetch_status_exactly_200 (env : Env) :
    ((∃ t, getSettingsTokens env = Except.ok t) → env.tokensStatus = 200) ∧
    (env.tokensStatus ≠ 200 →
      getSettingsTokens env = Except.error (statusMsg FETCH_TOKENS_FAILED env.tokensStatus)) ∧
    ((∃ us, fetchUsers env = Except.ok us) → env.usersStatus = 200) ∧
    (env.usersStatus ≠ 200 →
      fetchUsers env = Except.error (statusMsg FETCH_USERS_FAILED env.usersStatus)) ∧
    ((∃ u, fetchAuthenticatedUser env = Except.ok u) → env.settingsStatus = 200) ∧
    (∀ t, getSettingsTokens env = Except.ok t → env.settingsStatus ≠ 200 →
      fetchAuthenticatedUser env =
        Except.error (statusMsg FETCH_AUTHENTICATED_USER_FAILED env.settingsStatus)) := by
  refine ⟨?_, ?_, ?_, ?_, ?_, ?_⟩
  · rintro ⟨t, ht⟩
    by_contra hne
    simp [getSettingsTokens, HTTP_STATUS_OK, hne] at ht
  · intro hne
    simp [getSettingsTokens, HTTP_STATUS_OK, hne]
  · rintro ⟨us, hu⟩
    by_contra hne
    simp [fetchUsers, HTTP_STATUS_OK, hne] at hu
  · intro hne
    simp [fetchUsers, HTTP_STATUS_OK, hne]
  · rintro ⟨u, hu⟩
    by_contra hne
    rcases ht : getSettingsTokens env with e | t <;>
      simp [fetchAuthenticatedUser, ht, HTTP_STATUS_OK, hne, Bind.bind, Except.bind] at hu
  · intro t ht hne
    simp [fetchAuthenticatedUser, ht, HTTP_STATUS_OK, hne, Bind.bind, Except.bind]

def sampleEnv201 : Env := { sampleEnv with usersStatus := 201 }

theorem fetch_status_exactly_200_witness :
    fetchUsers sampleEnv201 = Except.error (statusMsg FETCH_USERS_FAILED sampleEnv201.usersStatus) :=
  (fetch_status_exactly_200 sampleEnv201).2.2.2.1 (by decide)

theorem generateCheckcode_matches_spec_witness :
    generateCheckcode sampleTokens "1700000000".data =
      checkcodeSpec sampleTokens "1700000000".data :=
  (generateCheckcode_matches_spec sampleTokens "1700000000".data).1

theorem absorbCookie_first_split_spec_witness :
    absorbCookie [] "x=1; Path=/".data = [("x".data, "1".data)] :=
  (absorbCookie_first_split_spec [] "x=1; Path=/".data).trans (by decide)

theorem cookieJar_last_value_render_witness :
    ((parseCookies [] (some ["a=1".data, "a=2".data])).map Prod.fst).Nodup :=
  (cookieJar_last_value_render ["a=1".data, "a=2".data]).1

theorem authRequestForm_single_timestamp_witness :
    ∃ ts, lookupJar "timestamp".data (authRequestForm sampleTokens 1700000000000) = some ts ∧
      lookupJar "checkcode".data (authRequestForm sampleTokens 1700000000000) =
        some (generateCheckcode sampleTokens ts) ∧
      ts = natToStr (1700000000000 / 1000) :=
  authRequestForm_single_timestamp sampleTokens 1700000000000

theorem mergeUsers_dedup_append_witness :
    mergeUsers [sampleUser] sampleUser =
      if ∃ u ∈ [sampleUser], u.id = sampleUser.id ∨ u.email = sampleUser.email then [sampleUser]
      else [sampleUser] ++ [sampleUser] :=
  mergeUsers_dedup_append [sampleUser] sampleUser
